import Mathlib

/-!
Verification of the latency sampling and classification pipeline shared by
the three analysis scripts of the repository (`analyze_periodic.py`,
`periodic_experiment.py`, `experiment_suite.py`).

Modelling conventions:
* numeric values (seconds, milliseconds) are modelled as rationals; Python
  float literals in the scripts denote their exact decimal values here;
* Python `sorted` is modelled by insertion sort, which produces the same
  (unique) `≤`-sorted permutation on a linear order;
* a Python function that can raise an exception is modelled as returning
  `Option` (`none` = the call raises / the value is undefined such as NaN);
* the two regular expressions of `analyze_periodic.py` are modelled by
  specialised leftmost-search matchers over `List Char` that implement the
  preference order of Python's backtracking engine for those two patterns;
* live HTTP requests and the wall clock are modelled as oracles passed in as
  function arguments: the oracle returns the measured elapsed time and the
  outcome (status code or caught-exception text) of each request.
-/

namespace ColdStart

/-- Python `sorted` on a list of numbers: the unique `≤`-sorted permutation. -/
def sortQ (l : List ℚ) : List ℚ := l.insertionSort (· ≤ ·)

/-- `COLD_THRESHOLD_MS = 500`, the threshold shared by all three scripts. -/
def COLD_THRESHOLD_MS : ℚ := 500

/-- `cold = [x for x in latencies if x > COLD_THRESHOLD_MS]`, with the
threshold as a parameter (the scripts instantiate it at 500). -/
def coldOf (t : ℚ) (latencies : List ℚ) : List ℚ :=
  latencies.filter (fun x => t < x)

/-- `warm = [x for x in latencies if x <= COLD_THRESHOLD_MS]`. -/
def warmOf (t : ℚ) (latencies : List ℚ) : List ℚ :=
  latencies.filter (fun x => x ≤ t)

/-- `statistics.mean`: arithmetic mean (callers guard non-emptiness). -/
def meanQ (l : List ℚ) : ℚ := l.sum / l.length

/-- `statistics.median`: sort, take the middle element for odd length, the
average of the two middle elements for even length. -/
def medianQ (l : List ℚ) : ℚ :=
  let d := sortQ l
  let n := d.length
  if n % 2 = 1 then d.getD (n / 2) 0
  else (d.getD (n / 2 - 1) 0 + d.getD (n / 2) 0) / 2

/-- `statistics.quantiles(data, n=n)` with the default exclusive method:
sort, set `m = len + 1`, and for each `i` in `1..n-1` put
`j, delta = divmod(i*m, n)`, clamp `j` into `[1, len-1]`, and interpolate
`(data[j-1]*(n-delta) + data[j]*delta)/n`.  Raises (returns `none`) when the
data has fewer than two points. -/
def quantilesExc (data : List ℚ) (n : Nat) : Option (List ℚ) :=
  let d := sortQ data
  let ld := d.length
  if ld < 2 then none
  else some ((List.range (n - 1)).map (fun i0 =>
    let i := i0 + 1
    let m := ld + 1
    let j0 := i * m / n
    let delta := i * m % n
    let j := if j0 < 1 then 1 else if ld - 1 < j0 then ld - 1 else j0
    (d.getD (j - 1) 0 * ((n : ℚ) - (delta : ℚ)) + d.getD j 0 * (delta : ℚ))
      / (n : ℚ)))

end ColdStart

namespace AnalyzePeriodic

/-! Model of the two regular expressions of `analyze_periodic.py`:

    LATENCY_REGEX = re.compile(r"(?:real\s*)?(?:(\d+)m)?\s*([0-9]*\.?[0-9]+)s?")
    REQ_NUM_REGEX = re.compile(r"Request\s+(\d+)")

Both are used with `.search`, i.e. leftmost match with the backtracking
preference order of Python's engine.  For these two specific patterns the
backtracking search collapses to the deterministic algorithms below (greedy
repetition followed by a character that cannot extend it never needs to be
re-tried shorter, and the only productive fallback of `(?:(\d+)m)?` is to
skip the group entirely). -/

/-- Python `\s` on the ASCII range. -/
def isSpaceCh (c : Char) : Bool :=
  c == ' ' || c == '\t' || c == '\n' || c == '\r' ||
    c == Char.ofNat 11 || c == Char.ofNat 12

/-- Numeric value of a digit string (`int(...)` on the captured group). -/
def digitsVal (l : List Char) : Nat :=
  l.foldl (fun a c => 10 * a + (c.toNat - 48)) 0

/-- Integer part, fraction numerator and fraction length of a captured
`[0-9]*\.?[0-9]+` group (a computation on digit strings only). -/
def decParts (s : List Char) : Nat × Nat × Nat :=
  match s.dropWhile Char.isDigit with
  | a :: fp =>
    if a = '.' then (digitsVal (s.takeWhile Char.isDigit), digitsVal fp, fp.length)
    else (digitsVal (s.takeWhile Char.isDigit), 0, 0)
  | [] => (digitsVal (s.takeWhile Char.isDigit), 0, 0)

/-- `float(...)` on a captured `[0-9]*\.?[0-9]+` group, exactly. -/
def decimalVal (s : List Char) : ℚ :=
  let p := decParts s
  (p.1 : ℚ) + (p.2.1 : ℚ) / (10 : ℚ) ^ p.2.2

/-- The group `([0-9]*\.?[0-9]+)` matched greedily at the head of `s`:
returns the captured text and the remaining input. -/
def matchNum (s : List Char) : Option (List Char × List Char) :=
  let d := s.takeWhile Char.isDigit
  match s.dropWhile Char.isDigit with
  | [] => if d.isEmpty then none else some (d, [])
  | a :: r2 =>
    if a = '.' then
      let d2 := r2.takeWhile Char.isDigit
      if d2.isEmpty then (if d.isEmpty then none else some (d, a :: r2))
      else some (d ++ a :: d2, r2.dropWhile Char.isDigit)
    else if d.isEmpty then none else some (d, a :: r2)

/-- `LATENCY_REGEX` matched at a position already past the optional
`(?:real\s*)?` group: first preference is the `(?:(\d+)m)?` group (greedy
digits immediately followed by `m`), falling back to skipping it; then
`\s*` greedy, then the seconds group. -/
def matchLatCore (s1 : List Char) : Option (Option (List Char) × List Char) :=
  let withMin : Option (Option (List Char) × List Char) :=
    match s1.dropWhile Char.isDigit with
    | a :: r2 =>
      if a = 'm' then
        if (s1.takeWhile Char.isDigit).isEmpty then none
        else (matchNum (r2.dropWhile isSpaceCh)).map
          (fun q => (some (s1.takeWhile Char.isDigit), q.1))
      else none
    | [] => none
  withMin.orElse (fun _ =>
    (matchNum (s1.dropWhile isSpaceCh)).map
      (fun q => ((none : Option (List Char)), q.1)))

/-- `LATENCY_REGEX` matched at the head of `s`: returns the optional minutes
capture and the seconds capture.  The final `s?` consumes nothing we need. -/
def matchLatAt (s : List Char) : Option (Option (List Char) × List Char) :=
  matchLatCore (if List.isPrefixOf [ 'r', 'e', 'a', 'l' ] s
    then (s.drop 4).dropWhile isSpaceCh else s)

/-- `LATENCY_REGEX.search`: try each position left to right. -/
def searchLat : List Char → Option (Option (List Char) × List Char)
  | [] => none
  | c :: rest =>
    match matchLatAt (c :: rest) with
    | some r => some r
    | none => searchLat rest

/-- `REQ_NUM_REGEX` matched at the head of `s`: returns the digits capture. -/
def matchReqAt (s : List Char) : Option (List Char) :=
  if List.isPrefixOf [ 'R', 'e', 'q', 'u', 'e', 's', 't' ] s then
    let r := s.drop 7
    if (r.takeWhile isSpaceCh).isEmpty then none
    else
      let d := (r.dropWhile isSpaceCh).takeWhile Char.isDigit
      if d.isEmpty then none else some d
  else none

/-- `REQ_NUM_REGEX.search`: try each position left to right. -/
def searchReq : List Char → Option (List Char)
  | [] => none
  | c :: rest =>
    match matchReqAt (c :: rest) with
    | some r => some r
    | none => searchReq rest

/-- Milliseconds from the two captures:
`total_seconds = seconds + minutes*60`, `ms = total_seconds * 1000`. -/
def latMs (mins : Option (List Char)) (secs : List Char) : ℚ :=
  (decimalVal secs + (match mins with
    | some md => (digitsVal md : ℚ) * 60
    | none => 0)) * 1000

/-- The body of the `for line in f` loop of `parse_periodic_log`: from the
held `current_req` state and one line, the new state and the sample emitted
by this line, if any (kept as its raw captures: request number, optional
minutes digits, seconds text).  The marker pattern is tried first; on a
marker hit the loop `continue`s, so a marker line is never consumed as a
time line. -/
def parseLine (st : Option Nat) (line : List Char) :
    Option Nat × Option (Nat × Option (List Char) × List Char) :=
  match searchReq line with
  | some d => (some (digitsVal d), none)
  | none =>
    match searchLat line, st with
    | some (mins, secs), some req => (none, some (req, mins, secs))
    | _, _ => (st, none)

/-- The loop of `parse_periodic_log` from a given `current_req` state,
emitting raw captures. -/
def parseLinesFrom (st : Option Nat) :
    List (List Char) → List (Nat × Option (List Char) × List Char)
  | [] => []
  | l :: rest =>
    match parseLine st l with
    | (st2, none) => parseLinesFrom st2 rest
    | (st2, some smp) => smp :: parseLinesFrom st2 rest

/-- `parse_periodic_log`: the parallel lists `req_nums`/`latencies` of the
script, as a single list of pairs.  The script converts each emitted sample
to milliseconds at the point of emission; converting them all at the end
collects the same two lists. -/
def parse_periodic_log (lines : List (List Char)) : List (Nat × ℚ) :=
  (parseLinesFrom none lines).map (fun t => (t.1, latMs t.2.1 t.2.2))

/-- The millisecond value `parse_periodic_log` extracts from one time line
(the value appended to `latencies` when `current_req` is set). -/
def timeLineMs (line : List Char) : Option ℚ :=
  (searchLat line).map (fun q => latMs q.1 q.2)

/-- The textual summary of `summarize` (analyze_periodic flavour), with the
optional warm/cold average lines.  `none` models an uncaught
`StatisticsError` (`statistics.mean` on an empty list, or
`statistics.quantiles` on fewer than two points). -/
structure ASummary where
  count : Nat
  mean : ℚ
  median : ℚ
  p90 : ℚ
  p99 : ℚ
  coldCount : Nat
  warmMean : Option ℚ
  coldMean : Option ℚ
deriving DecidableEq, Repr

/-- Shared summary builder: count/mean/median, `quantiles(...)[89]` and
`[98]`, cold/warm split at 500 ms and the two optional sub-means. -/
def summaryOf (latencies : List ℚ) (qs : List ℚ) : ASummary :=
  let cold := ColdStart.coldOf ColdStart.COLD_THRESHOLD_MS latencies
  let warm := ColdStart.warmOf ColdStart.COLD_THRESHOLD_MS latencies
  { count := latencies.length
    mean := ColdStart.meanQ latencies
    median := ColdStart.medianQ latencies
    p90 := qs.getD 89 0
    p99 := qs.getD 98 0
    coldCount := cold.length
    warmMean := if warm.isEmpty then none else some (ColdStart.meanQ warm)
    coldMean := if cold.isEmpty then none else some (ColdStart.meanQ cold) }

/-- `summarize(latencies)` of `analyze_periodic.py`: raises (`none`) on an
empty list (`statistics.mean`) and on a single point
(`statistics.quantiles`). -/
def summarize (latencies : List ℚ) : Option ASummary :=
  if latencies.isEmpty then none
  else
    match ColdStart.quantilesExc latencies 100 with
    | none => none
    | some qs => some (summaryOf latencies qs)

/-- `main()` of `analyze_periodic.py` after argument handling: parse the
log; on zero parsed latencies print a diagnostic and `sys.exit(1)`; then
summarize (an uncaught exception also ends the process with a non-zero
status).  Result: (exit status, summary reported on stdout if any). -/
def analyze_main (lines : List (List Char)) : Nat × Option ASummary :=
  let latencies := (parse_periodic_log lines).map (fun smp => smp.2)
  if latencies.isEmpty then (1, none)
  else
    match summarize latencies with
    | none => (1, none)
    | some s => (0, some s)

end AnalyzePeriodic

namespace PeriodicExperiment

/-- The `status` cell of a record: an HTTP status code, or the
`f"ERROR: {e}"` string recorded when the request raised. -/
inductive Status where
  | code (n : Nat)
  | caught (reason : String)
deriving DecidableEq, Repr

/-- One element of `records`: the dict
`{request_index, timestamp, latency_ms, status}`. -/
structure Record where
  request_index : Nat
  timestamp : String
  latency_ms : ℚ
  status : Status
deriving DecidableEq, Repr

/-- `run_experiment()` of `periodic_experiment.py`.  The transport oracle
gives, for each request index, the measured elapsed time
`(end - start) * 1000` and the outcome; the `try/except` records a failure
outcome with its elapsed time and the loop continues.  The clock oracle
gives the `datetime.now()` timestamp string. -/
def run_experiment (numRequests : Nat) (transport : Nat → ℚ × Status)
    (clock : Nat → String) : List Record :=
  (List.range numRequests).map (fun k =>
    let i := k + 1
    let r := transport i
    { request_index := i, timestamp := clock i,
      latency_ms := r.1, status := r.2 })

/-- `save_csv` field names. -/
def save_csv_header : List String :=
  ["request_index", "timestamp", "latency_ms", "status"]

/-- `save_csv` writes one row per record, in order (modelled as the records
themselves; every record appears, failures included). -/
def save_csv_rows (records : List Record) : List Record := records

/-- The filter of `summarize`:
`[r["latency_ms"] for r in records if isinstance(r["status"], int) and r["status"] == 200]`. -/
def successLatencies (records : List Record) : List ℚ :=
  (records.filter (fun r => decide (r.status = Status.code 200))).map
    (fun r => r.latency_ms)

/-- Outcome of `summarize(records)` of `periodic_experiment.py`: the
no-success notice (early `return`), an uncaught `StatisticsError`, or the
printed report. -/
inductive SummarizeOutcome where
  | noSuccess
  | raised
  | report (s : AnalyzePeriodic.ASummary)
deriving DecidableEq, Repr

/-- `summarize(records)`: filter to status-200 samples; on an empty filter
print a notice and return; otherwise report count/mean/median/p90/p99 and
the cold/warm split over the successful samples only. -/
def summarize (records : List Record) : SummarizeOutcome :=
  let latencies := successLatencies records
  if latencies.isEmpty then SummarizeOutcome.noSuccess
  else
    match ColdStart.quantilesExc latencies 100 with
    | none => SummarizeOutcome.raised
    | some qs => SummarizeOutcome.report (AnalyzePeriodic.summaryOf latencies qs)

/-- The series `plot` draws: x = `request_index`, y = `latency_ms`, over all
records (failures included). -/
def plotSeries (records : List Record) : List (Nat × ℚ) :=
  records.map (fun r => (r.request_index, r.latency_ms))

/-- `main()` of `periodic_experiment.py`: run, save, summarize, plot.  Exit
status 0 unless an exception escapes (`StatisticsError` from `summarize`). -/
def periodic_main (numRequests : Nat) (transport : Nat → ℚ × Status)
    (clock : Nat → String) : Nat × SummarizeOutcome :=
  let records := run_experiment numRequests transport clock
  match summarize records with
  | SummarizeOutcome.raised => (1, SummarizeOutcome.raised)
  | out => (0, out)

end PeriodicExperiment

namespace ExperimentSuite

/-- `LATENCY_CANDIDATES`. -/
def LATENCY_CANDIDATES : List String :=
  ["latency", "response-time", "response_time", "request_time", "req_time"]

/-- `find_latency_column(headers)`: first candidate present in the headers;
`none` models the `RuntimeError` raised when none is. -/
def find_latency_column (headers : List String) : Option String :=
  LATENCY_CANDIDATES.find? (fun cand => headers.contains cand)

/-- Integer part, fraction numerator and fraction length of an unsigned
decimal literal (`digits`, `digits.digits`, `.digits`, `digits.`); `none`
for anything else. -/
def floatParts (s : List Char) : Option (Nat × Nat × Nat) :=
  let ip := s.takeWhile Char.isDigit
  match s.dropWhile Char.isDigit with
  | [] =>
    if ip.isEmpty then none else some (AnalyzePeriodic.digitsVal ip, 0, 0)
  | a :: fp =>
    if a = '.' && fp.all Char.isDigit && !(ip.isEmpty && fp.isEmpty) then
      some (AnalyzePeriodic.digitsVal ip, AnalyzePeriodic.digitsVal fp,
        fp.length)
    else none

/-- Python `float()` restricted to the unsigned decimal literals the
pipeline feeds it; `none` models the `ValueError` on anything else. -/
def floatOfDecimal (s : List Char) : Option ℚ :=
  (floatParts s).map (fun p => (p.1 : ℚ) + (p.2.1 : ℚ) / (10 : ℚ) ^ p.2.2)

/-- Python `str.strip()` on the ASCII range. -/
def stripWs (s : List Char) : List Char :=
  ((s.dropWhile AnalyzePeriodic.isSpaceCh).reverse.dropWhile
    AnalyzePeriodic.isSpaceCh).reverse

/-- `parse_latency_ms(value)`: strip, lowercase, drop a trailing `s` unit if
present, read as a float of SECONDS, multiply by 1000. -/
def parse_latency_ms (value : List Char) : Option ℚ :=
  let v := (stripWs value).map Char.toLower
  if v.getLast? = some 's' then
    (floatOfDecimal v.dropLast).map (fun x => x * 1000)
  else (floatOfDecimal v).map (fun x => x * 1000)

/-- `percentile(sorted_data, p)`: `nan` (`none`) on empty input, otherwise
`k = (len-1) * p/100`, `f = int(k)` (truncation toward zero), and
`c = min(f+1, len-1)`; return `sorted_data[f]` when `f == c`, else
`sorted_data[f] + (sorted_data[c] - sorted_data[f]) * (k - f)`.
(Indexing out of range — impossible for `p` in `[0,100]` — is `none`.) -/
def percentile (sorted_data : List ℚ) (p : ℚ) : Option ℚ :=
  if sorted_data.isEmpty then none
  else
    let k : ℚ := ((sorted_data.length : ℚ) - 1) * (p / 100)
    let f : ℤ := Int.tdiv k.num (k.den : ℤ)
    let c : ℤ := min (f + 1) ((sorted_data.length : ℤ) - 1)
    if f = c then sorted_data[f.toNat]?
    else
      match sorted_data[f.toNat]?, sorted_data[c.toNat]? with
      | some a, some b => some (a + (b - a) * (k - (f : ℚ)))
      | _, _ => none

/-- The spec's own wording for the interpolated percentile, for comparison:
sort the sequence, compute the fractional rank `k = (n-1) * p/100`, and
interpolate linearly between the elements at ranks `floor k` and `ceil k`. -/
def specPercentile (data : List ℚ) (p : ℚ) : ℚ :=
  let s := ColdStart.sortQ data
  let n := s.length
  let k : ℚ := ((n : ℚ) - 1) * (p / 100)
  let lo := s.getD (Int.toNat ⌊k⌋) 0
  let hi := s.getD (Int.toNat ⌈k⌉) 0
  lo + (hi - lo) * (k - (⌊k⌋ : ℚ))

/-- The stats dict of `summarize_latencies`. -/
structure SuiteStats where
  p50 : ℚ
  p90 : ℚ
  p95 : ℚ
  p99 : ℚ
  mean : ℚ
deriving DecidableEq, Repr

/-- `summarize_latencies(lat_ms)`: sort once, take the four percentiles and
the mean; on an empty list `sum(..)/len(..)` raises (`none`). -/
def summarize_latencies (lat_ms : List ℚ) : Option SuiteStats :=
  let s := ColdStart.sortQ lat_ms
  if lat_ms.isEmpty then none
  else some
    { p50 := (percentile s 50).getD 0
      p90 := (percentile s 90).getD 0
      p95 := (percentile s 95).getD 0
      p99 := (percentile s 99).getD 0
      mean := lat_ms.sum / lat_ms.length }

/-- `periodic_run(service, interval_s, num_requests)` of
`experiment_suite.py`: one latency per request in issue order; a request
that raises is passed over (`except: pass`) and its elapsed time up to the
failure is still appended. -/
def periodic_run (num_requests : Nat) (transport : Nat → ℚ) : List ℚ :=
  (List.range num_requests).map (fun k => transport (k + 1))

end ExperimentSuite

/-! ### Theorems -/

section Theorems

open ColdStart

/-- Helper: an `orElse` of options is some when the fallback is. -/
theorem orElse_isSome_of_right {α : Type} (a : Option α) (f : Unit → Option α)
    (h : (f ()).isSome = true) : (a.orElse f).isSome = true := by
  cases a <;> simp [Option.orElse, h]

/-- Helper: membership in `coldOf` means strictly above the threshold. -/
theorem mem_coldOf {t x : ℚ} {l : List ℚ} (h : x ∈ coldOf t l) : t < x := by
  have := List.of_mem_filter h
  exact of_decide_eq_true this

/-- Helper: membership in `warmOf` means at most the threshold. -/
theorem mem_warmOf {t x : ℚ} {l : List ℚ} (h : x ∈ warmOf t l) : x ≤ t := by
  have := List.of_mem_filter h
  exact of_decide_eq_true this

/-- Helper: `coldOf` and `warmOf` jointly permute the input. -/
theorem coldOf_append_warmOf_perm (t : ℚ) (l : List ℚ) :
    (coldOf t l ++ warmOf t l).Perm l := by
  have h := List.filter_append_perm (fun x => decide (t < x)) l
  have hf : List.filter (fun x => !decide (t < x)) l
      = List.filter (fun x => decide (x ≤ t)) l := by
    apply List.filter_congr
    intro x _
    simp [← decide_not, decide_eq_decide, not_lt]
  rw [hf] at h
  simpa [coldOf, warmOf] using h

/-- C2: for every threshold `T` and every sequence, the classifier returns
two order-preserving subsequences partitioning the input: `cold` holds
exactly the elements strictly greater than `T`, `warm` those less than or
equal to `T` (a value equal to `T` is warm, never cold); in particular for
`T = 500` and input `[100, 600, 500, 501]`, cold is `[600, 501]` and warm
is `[100, 500]`. -/
theorem classifier_partition (t : ℚ) (l : List ℚ) :
    (∀ x ∈ coldOf t l, t < x) ∧
    (∀ x ∈ warmOf t l, x ≤ t) ∧
    (∀ x ∈ l, (x ∈ coldOf t l ∧ x ∉ warmOf t l) ∨ (x ∈ warmOf t l ∧ x ∉ coldOf t l)) ∧
    (coldOf t l).Sublist l ∧
    (warmOf t l).Sublist l ∧
    (coldOf t l ++ warmOf t l).Perm l ∧
    coldOf 500 [100, 600, 500, 501] = [600, 501] ∧
    warmOf 500 [100, 600, 500, 501] = [100, 500] := by
  refine ⟨fun x hx => mem_coldOf hx, fun x hx => mem_warmOf hx, ?_,
    List.filter_sublist l, List.filter_sublist l,
    coldOf_append_warmOf_perm t l, by decide, by decide⟩
  intro x hx
  by_cases hc : t < x
  · left
    constructor
    · simpa [coldOf, List.mem_filter, hx]
    · intro hw
      exact absurd (mem_warmOf hw) (not_le.mpr hc)
  · right
    constructor
    · simp [warmOf, List.mem_filter, hx, not_lt.mp hc]
    · intro hcold
      exact hc (mem_coldOf hcold)

/-- Witness for C2 at `T = 500`, input `[100, 600, 500, 501]`. -/
theorem classifier_partition_witness : (500 : ℚ) < 600 ∧ (100 : ℚ) ≤ 500 :=
  ⟨(classifier_partition 500 [100, 600, 500, 501]).1 600 (by decide),
   (classifier_partition 500 [100, 600, 500, 501]).2.1 100 (by decide)⟩

/-- Helper: a line where the marker regex hits sets `current_req` and emits
nothing. -/
theorem parseLine_marker {line d : List Char} (st : Option Nat)
    (h : AnalyzePeriodic.searchReq line = some d) :
    AnalyzePeriodic.parseLine st line =
      (some (AnalyzePeriodic.digitsVal d), none) := by
  simp [AnalyzePeriodic.parseLine, h]

/-- Helper: a line where neither regex hits leaves the state unchanged and
emits nothing. -/
theorem parseLine_inert {line : List Char} (st : Option Nat)
    (h1 : AnalyzePeriodic.searchReq line = none)
    (h2 : AnalyzePeriodic.searchLat line = none) :
    AnalyzePeriodic.parseLine st line = (st, none) := by
  simp [AnalyzePeriodic.parseLine, h1, h2]

/-- Helper: a marker followed only by lines that match neither regex, up to
the next marker, contributes nothing: the parse continues as if the run
started at the next marker. -/
theorem parseLinesFrom_drop_marker (st : Option Nat)
    (m1 m2 d1 d2 : List Char) (ls rest : List (List Char))
    (h1 : AnalyzePeriodic.searchReq m1 = some d1)
    (hls : ∀ l ∈ ls, AnalyzePeriodic.searchReq l = none ∧
      AnalyzePeriodic.searchLat l = none)
    (h2 : AnalyzePeriodic.searchReq m2 = some d2) :
    AnalyzePeriodic.parseLinesFrom st (m1 :: (ls ++ m2 :: rest)) =
      AnalyzePeriodic.parseLinesFrom st (m2 :: rest) := by
  have key : ∀ (ls2 : List (List Char)) (st2 : Option Nat),
      (∀ l ∈ ls2, AnalyzePeriodic.searchReq l = none ∧
        AnalyzePeriodic.searchLat l = none) →
      AnalyzePeriodic.parseLinesFrom st2 (ls2 ++ m2 :: rest) =
        AnalyzePeriodic.parseLinesFrom (some (AnalyzePeriodic.digitsVal d2))
          rest := by
    intro ls2
    induction ls2 with
    | nil =>
      intro st2 _
      simp [AnalyzePeriodic.parseLinesFrom, parseLine_marker st2 h2]
    | cons a as ih =>
      intro st2 hmem
      have ha := hmem a (List.mem_cons_self a as)
      have has : ∀ l ∈ as, AnalyzePeriodic.searchReq l = none ∧
          AnalyzePeriodic.searchLat l = none :=
        fun l hl => hmem l (List.mem_cons_of_mem a hl)
      simp only [List.cons_append, AnalyzePeriodic.parseLinesFrom,
        parseLine_inert st2 ha.1 ha.2]
      exact ih st2 has
  have hm1 : AnalyzePeriodic.parseLinesFrom st (m1 :: (ls ++ m2 :: rest)) =
      AnalyzePeriodic.parseLinesFrom (some (AnalyzePeriodic.digitsVal d1))
        (ls ++ m2 :: rest) := by
    simp [AnalyzePeriodic.parseLinesFrom, parseLine_marker st h1]
  rw [hm1, key ls _ hls]
  simp [AnalyzePeriodic.parseLinesFrom, parseLine_marker st h2]

/-- C3: the log parser yields `{index: 7, elapsed_ms: 1302.0}` from
`Request 7` / `real 0m1.302s` and `{index: 3, elapsed_ms: 932.0}` from
`Request 3` / `0.932`; it accepts the time spellings `0m0.623s`, `1.23s`,
`0.932` and `1m02.5`, converting minutes to seconds before summing and the
total to milliseconds; and a marker line with no following parseable time
line before the next marker line yields zero samples for that marker. -/
theorem log_parser_spec :
    AnalyzePeriodic.parse_periodic_log
      [String.toList "Request 7", String.toList "real 0m1.302s"]
      = [(7, 1302)] ∧
    AnalyzePeriodic.parse_periodic_log
      [String.toList "Request 3", String.toList "0.932"]
      = [(3, 932)] ∧
    AnalyzePeriodic.timeLineMs (String.toList "0m0.623s") = some 623 ∧
    AnalyzePeriodic.timeLineMs (String.toList "1.23s") = some 1230 ∧
    AnalyzePeriodic.timeLineMs (String.toList "0.932") = some 932 ∧
    AnalyzePeriodic.timeLineMs (String.toList "1m02.5") = some 62500 ∧
    (∀ (st : Option Nat) (m1 m2 d1 d2 : List Char)
      (ls rest : List (List Char)),
      AnalyzePeriodic.searchReq m1 = some d1 →
      (∀ l ∈ ls, AnalyzePeriodic.searchReq l = none ∧
        AnalyzePeriodic.searchLat l = none) →
      AnalyzePeriodic.searchReq m2 = some d2 →
      AnalyzePeriodic.parseLinesFrom st (m1 :: (ls ++ m2 :: rest)) =
        AnalyzePeriodic.parseLinesFrom st (m2 :: rest)) := by
  refine ⟨?_, ?_, ?_, ?_, ?_, ?_,
    fun st m1 m2 d1 d2 ls rest h1 hls h2 =>
      parseLinesFrom_drop_marker st m1 m2 d1 d2 ls rest h1 hls h2⟩
  · have h : AnalyzePeriodic.parseLinesFrom none
        [String.toList "Request 7", String.toList "real 0m1.302s"]
        = [(7, some ['0'], ['1', '.', '3', '0', '2'])] := by decide
    rw [AnalyzePeriodic.parse_periodic_log, h]
    norm_num [AnalyzePeriodic.latMs, AnalyzePeriodic.decimalVal,
      show AnalyzePeriodic.decParts ['1', '.', '3', '0', '2'] = (1, 302, 3)
        from by decide,
      show AnalyzePeriodic.digitsVal ['0'] = 0 from by decide]
  · have h : AnalyzePeriodic.parseLinesFrom none
        [String.toList "Request 3", String.toList "0.932"]
        = [(3, none, ['0', '.', '9', '3', '2'])] := by decide
    rw [AnalyzePeriodic.parse_periodic_log, h]
    norm_num [AnalyzePeriodic.latMs, AnalyzePeriodic.decimalVal,
      show AnalyzePeriodic.decParts ['0', '.', '9', '3', '2'] = (0, 932, 3)
        from by decide]
  · have h : AnalyzePeriodic.searchLat (String.toList "0m0.623s")
        = some (some ['0'], ['0', '.', '6', '2', '3']) := by decide
    rw [AnalyzePeriodic.timeLineMs, h]
    norm_num [AnalyzePeriodic.latMs, AnalyzePeriodic.decimalVal,
      show AnalyzePeriodic.decParts ['0', '.', '6', '2', '3'] = (0, 623, 3)
        from by decide,
      show AnalyzePeriodic.digitsVal ['0'] = 0 from by decide]
  · have h : AnalyzePeriodic.searchLat (String.toList "1.23s")
        = some (none, ['1', '.', '2', '3']) := by decide
    rw [AnalyzePeriodic.timeLineMs, h]
    norm_num [AnalyzePeriodic.latMs, AnalyzePeriodic.decimalVal,
      show AnalyzePeriodic.decParts ['1', '.', '2', '3'] = (1, 23, 2)
        from by decide]
  · have h : AnalyzePeriodic.searchLat (String.toList "0.932")
        = some (none, ['0', '.', '9', '3', '2']) := by decide
    rw [AnalyzePeriodic.timeLineMs, h]
    norm_num [AnalyzePeriodic.latMs, AnalyzePeriodic.decimalVal,
      show AnalyzePeriodic.decParts ['0', '.', '9', '3', '2'] = (0, 932, 3)
        from by decide]
  · have h : AnalyzePeriodic.searchLat (String.toList "1m02.5")
        = some (some ['1'], ['0', '2', '.', '5']) := by decide
    rw [AnalyzePeriodic.timeLineMs, h]
    norm_num [AnalyzePeriodic.latMs, AnalyzePeriodic.decimalVal,
      show AnalyzePeriodic.decParts ['0', '2', '.', '5'] = (2, 5, 1)
        from by decide,
      show AnalyzePeriodic.digitsVal ['1'] = 1 from by decide]

/-- Witness for C3's universal conjunct: a marker `Request 9`, followed by a
line with no number, then marker `Request 3` with time `0.932`: the run
parses exactly as if it started at `Request 3`. -/
theorem log_parser_spec_witness :
    AnalyzePeriodic.parseLinesFrom none
      [String.toList "Request 9", String.toList "no digits here",
        String.toList "Request 3", String.toList "0.932"] =
      AnalyzePeriodic.parseLinesFrom none
        [String.toList "Request 3", String.toList "0.932"] :=
  (log_parser_spec).2.2.2.2.2.2 none (String.toList "Request 9")
    (String.toList "Request 3") ['9'] ['3'] [String.toList "no digits here"]
    [String.toList "0.932"] (by decide) (by decide) (by decide)

/-- Helper: a digit character is not any fixed non-digit character. -/
theorem digit_beq_false {c : Char} (h : c.isDigit = true) (a : Char)
    (ha : a.isDigit = false) : (c == a) = false := by
  rw [beq_eq_false_iff_ne]
  intro heq
  rw [heq] at h
  rw [h] at ha
  cases ha

/-- Helper: a fixed non-digit character is not any digit character. -/
theorem beq_digit_false {c : Char} (h : c.isDigit = true) (a : Char)
    (ha : a.isDigit = false) : (a == c) = false := by
  rw [beq_eq_false_iff_ne]
  intro heq
  rw [← heq] at h
  rw [h] at ha
  cases ha

/-- Helper: a digit is not whitespace. -/
theorem isSpaceCh_of_digit {c : Char} (h : c.isDigit = true) :
    AnalyzePeriodic.isSpaceCh c = false := by
  simp only [AnalyzePeriodic.isSpaceCh,
    digit_beq_false h ' ' (by decide), digit_beq_false h '\t' (by decide),
    digit_beq_false h '\n' (by decide), digit_beq_false h '\r' (by decide),
    digit_beq_false h (Char.ofNat 11) (by decide),
    digit_beq_false h (Char.ofNat 12) (by decide), Bool.or_self, Bool.or_false]

/-- Helper: the seconds group matches at any digit. -/
theorem matchNum_isSome_of_digit (c : Char) (rest : List Char)
    (h : c.isDigit = true) :
    (AnalyzePeriodic.matchNum (c :: rest)).isSome = true := by
  cases hd : rest.dropWhile Char.isDigit with
  | nil =>
    simp [AnalyzePeriodic.matchNum, List.takeWhile_cons, List.dropWhile_cons,
      h, hd]
  | cons a r2 =>
    by_cases ha : a = '.'
    · by_cases h2 : (r2.takeWhile Char.isDigit).isEmpty = true <;>
        simp [AnalyzePeriodic.matchNum, List.takeWhile_cons,
          List.dropWhile_cons, h, hd, ha, h2]
    · simp [AnalyzePeriodic.matchNum, List.takeWhile_cons,
        List.dropWhile_cons, h, hd, ha]

/-- Helper: the latency pattern matches at any position starting with a
digit. -/
theorem matchLatCore_isSome_of_digit (c : Char) (rest : List Char)
    (h : c.isDigit = true) :
    (AnalyzePeriodic.matchLatCore (c :: rest)).isSome = true := by
  unfold AnalyzePeriodic.matchLatCore
  apply orElse_isSome_of_right
  have hsp : AnalyzePeriodic.isSpaceCh c = false := isSpaceCh_of_digit h
  obtain ⟨v, hv⟩ := Option.isSome_iff_exists.mp
    (matchNum_isSome_of_digit c rest h)
  simp [List.dropWhile_cons, hsp, hv]

/-- Helper: the latency search at a digit head succeeds. -/
theorem matchLatAt_isSome_of_digit (c : Char) (rest : List Char)
    (h : c.isDigit = true) :
    (AnalyzePeriodic.matchLatAt (c :: rest)).isSome = true := by
  have hr : List.isPrefixOf [ 'r', 'e', 'a', 'l' ] (c :: rest) = false := by
    simp [List.isPrefixOf, beq_digit_false h 'r' (by decide)]
  rw [AnalyzePeriodic.matchLatAt, hr]
  exact matchLatCore_isSome_of_digit c rest h

/-- Helper: any line containing a digit matches the latency regex. -/
theorem searchLat_isSome_of_digit (s : List Char)
    (hex : ∃ c ∈ s, c.isDigit = true) :
    (AnalyzePeriodic.searchLat s).isSome = true := by
  induction s with
  | nil =>
    obtain ⟨c, hc, _⟩ := hex
    cases hc
  | cons a rest ih =>
    obtain ⟨c, hc, hcd⟩ := hex
    cases hm : AnalyzePeriodic.matchLatAt (a :: rest) with
    | some r => simp [AnalyzePeriodic.searchLat, hm]
    | none =>
      rcases List.mem_cons.mp hc with h1 | h2
      · rw [← h1] at hm
        have := matchLatAt_isSome_of_digit c rest hcd
        rw [hm] at this
        cases this
      · simp only [AnalyzePeriodic.searchLat, hm]
        exact ih ⟨c, h2, hcd⟩

/-- C10: once a marker sets the request index, the next line containing any
decimal number is accepted as the time-bearing line, time-formatted or not:
`HTTP/1.1 200 OK` after `Request 5` yields the sample
`{index: 5, elapsed_ms: 1100.0}` (its first number `1.1` read as seconds);
marker lines are never consumed as time values because the marker pattern is
tried first on every line. -/
theorem log_parser_any_number_line :
    AnalyzePeriodic.parse_periodic_log
      [String.toList "Request 5", String.toList "HTTP/1.1 200 OK"]
      = [(5, 1100)] ∧
    (∀ (st : Option Nat) (line d : List Char),
      AnalyzePeriodic.searchReq line = some d →
      AnalyzePeriodic.parseLine st line =
        (some (AnalyzePeriodic.digitsVal d), none)) ∧
    (∀ (line : List Char) (req : Nat),
      AnalyzePeriodic.searchReq line = none →
      (∃ c ∈ line, c.isDigit = true) →
      ∃ caps, AnalyzePeriodic.searchLat line = some caps ∧
        AnalyzePeriodic.parseLine (some req) line =
          (none, some (req, caps))) := by
  refine ⟨?_, fun st line d h => parseLine_marker st h, ?_⟩
  · have h : AnalyzePeriodic.parseLinesFrom none
        [String.toList "Request 5", String.toList "HTTP/1.1 200 OK"]
        = [(5, none, ['1', '.', '1'])] := by decide
    rw [AnalyzePeriodic.parse_periodic_log, h]
    norm_num [AnalyzePeriodic.latMs, AnalyzePeriodic.decimalVal,
      show AnalyzePeriodic.decParts ['1', '.', '1'] = (1, 1, 1)
        from by decide]
  · intro line req hreq hex
    obtain ⟨caps, hcaps⟩ := Option.isSome_iff_exists.mp
      (searchLat_isSome_of_digit line hex)
    exact ⟨caps, hcaps, by simp [AnalyzePeriodic.parseLine, hreq, hcaps]⟩

/-- Witness for C10 on the lines `Request 5` and `HTTP/1.1 200 OK`. -/
theorem log_parser_any_number_line_witness :
    AnalyzePeriodic.parseLine none (String.toList "Request 5") =
      (some (AnalyzePeriodic.digitsVal ['5']), none) ∧
    ∃ caps, AnalyzePeriodic.searchLat (String.toList "HTTP/1.1 200 OK")
        = some caps ∧
      AnalyzePeriodic.parseLine (some 5) (String.toList "HTTP/1.1 200 OK") =
        (none, some (5, caps)) :=
  ⟨(log_parser_any_number_line).2.1 none (String.toList "Request 5") ['5']
      (by decide),
   (log_parser_any_number_line).2.2 (String.toList "HTTP/1.1 200 OK") 5
      (by decide) ⟨'1', by decide, by decide⟩⟩

/-- C4: a live run configured with `N` requests produces exactly `N`
samples, indices contiguous from 1 to `N` in issuance order, for EVERY
transport oracle — in particular when a request fails, its sample still
appears, carrying the measured elapsed time and the failure outcome, and
the run continues; likewise the suite's `periodic_run` records one latency
per request in order, failures included. -/
theorem live_source_complete (N : Nat)
    (transport : Nat → ℚ × PeriodicExperiment.Status) (clock : Nat → String)
    (t2 : Nat → ℚ) :
    (PeriodicExperiment.run_experiment N transport clock).length = N ∧
    (PeriodicExperiment.run_experiment N transport clock).map
      (fun r => r.request_index) = List.range' 1 N ∧
    (∀ k, k < N →
      (PeriodicExperiment.run_experiment N transport clock).getD k
          ⟨0, "", 0, PeriodicExperiment.Status.code 0⟩ =
        ⟨k + 1, clock (k + 1), (transport (k + 1)).1,
          (transport (k + 1)).2⟩) ∧
    (ExperimentSuite.periodic_run N t2).length = N ∧
    (∀ k, k < N → (ExperimentSuite.periodic_run N t2).getD k 0 = t2 (k + 1))
    := by
  refine ⟨by simp [PeriodicExperiment.run_experiment], ?_, ?_,
    by simp [ExperimentSuite.periodic_run], ?_⟩
  · rw [List.range'_eq_map_range]
    simp only [PeriodicExperiment.run_experiment, List.map_map]
    simp [Function.comp, Nat.add_comm]
  · intro k hk
    simp [PeriodicExperiment.run_experiment, List.getD_eq_getElem?_getD,
      List.getElem?_map, List.getElem?_range, hk]
  · intro k hk
    simp [ExperimentSuite.periodic_run, List.getD_eq_getElem?_getD,
      List.getElem?_map, List.getElem?_range, hk]

/-- Witness for C4: two requests, both raising a transport error, still
produce the two samples `1` and `2` with their elapsed times. -/
theorem live_source_complete_witness :
    (PeriodicExperiment.run_experiment 2
        (fun _ => (30000, PeriodicExperiment.Status.caught "timeout"))
        (fun _ => "ts")).getD 1 ⟨0, "", 0, PeriodicExperiment.Status.code 0⟩ =
      ⟨2, "ts", 30000, PeriodicExperiment.Status.caught "timeout"⟩ ∧
    (ExperimentSuite.periodic_run 2 (fun _ => 30000)).getD 1 0 = 30000 :=
  ⟨((live_source_complete 2
      (fun _ => (30000, PeriodicExperiment.Status.caught "timeout"))
      (fun _ => "ts") (fun _ => 30000)).2.2.1 1 (by decide)),
   ((live_source_complete 2
      (fun _ => (30000, PeriodicExperiment.Status.caught "timeout"))
      (fun _ => "ts") (fun _ => 30000)).2.2.2.2 1 (by decide))⟩

/-- C9: the console summary of the live periodic experiment is computed only
over samples whose status is the integer 200: the outcome of `summarize`
depends only on the success-filtered latencies, it is the printed no-success
notice (a normal return, no statistics) exactly when no sample has status
200, its reported count and mean range over the successes only, and every
record — failures included — still appears in the CSV rows and in the
plotted series. -/
theorem summarize_success_only
    (records records2 : List PeriodicExperiment.Record) :
    (PeriodicExperiment.successLatencies records =
        PeriodicExperiment.successLatencies records2 →
      PeriodicExperiment.summarize records =
        PeriodicExperiment.summarize records2) ∧
    (PeriodicExperiment.summarize records =
        PeriodicExperiment.SummarizeOutcome.noSuccess ↔
      ∀ r ∈ records, r.status ≠ PeriodicExperiment.Status.code 200) ∧
    (∀ s, PeriodicExperiment.summarize records =
        PeriodicExperiment.SummarizeOutcome.report s →
      s.count = (PeriodicExperiment.successLatencies records).length ∧
      s.mean = ColdStart.meanQ (PeriodicExperiment.successLatencies records))
    ∧
    (∀ r ∈ records, r ∈ PeriodicExperiment.save_csv_rows records ∧
      (r.request_index, r.latency_ms) ∈
        PeriodicExperiment.plotSeries records) := by
  refine ⟨?_, ?_, ?_, ?_⟩
  · intro h
    simp only [PeriodicExperiment.summarize, h]
  · by_cases he : (PeriodicExperiment.successLatencies records).isEmpty = true
    · have : ∀ r ∈ records, r.status ≠ PeriodicExperiment.Status.code 200 := by
        intro r hr hst
        rw [List.isEmpty_iff] at he
        have : r ∈ records.filter
            (fun r => decide (r.status = PeriodicExperiment.Status.code 200)) :=
          List.mem_filter.mpr ⟨hr, decide_eq_true hst⟩
        have hmem : r.latency_ms ∈ PeriodicExperiment.successLatencies records :=
          List.mem_map_of_mem _ this
        rw [he] at hmem
        cases hmem
      simp only [PeriodicExperiment.summarize, he, if_true]
      exact ⟨fun _ => this, fun _ => trivial⟩
    · cases hq : ColdStart.quantilesExc
          (PeriodicExperiment.successLatencies records) 100 with
      | none =>
        simp only [PeriodicExperiment.summarize, he, if_false, hq]
        constructor
        · intro h
          cases h
        · intro hall
          exfalso
          apply he
          rw [List.isEmpty_iff]
          simp only [PeriodicExperiment.successLatencies,
            List.map_eq_nil_iff, List.filter_eq_nil_iff]
          intro r hr
          simp [hall r hr]
      | some qs =>
        simp only [PeriodicExperiment.summarize, he, if_false, hq]
        constructor
        · intro h
          cases h
        · intro hall
          exfalso
          apply he
          rw [List.isEmpty_iff]
          simp only [PeriodicExperiment.successLatencies,
            List.map_eq_nil_iff, List.filter_eq_nil_iff]
          intro r hr
          simp [hall r hr]
  · intro s hs
    by_cases he : (PeriodicExperiment.successLatencies records).isEmpty = true
    · simp [PeriodicExperiment.summarize, he] at hs
    · cases hq : ColdStart.quantilesExc
          (PeriodicExperiment.successLatencies records) 100 with
      | none => simp [PeriodicExperiment.summarize, he, hq] at hs
      | some qs =>
        have h2 : PeriodicExperiment.summarize records =
            PeriodicExperiment.SummarizeOutcome.report
              (AnalyzePeriodic.summaryOf
                (PeriodicExperiment.successLatencies records) qs) := by
          simp [PeriodicExperiment.summarize, he, hq]
        rw [h2] at hs
        injection hs with h3
        rw [← h3]
        exact ⟨rfl, rfl⟩
  · intro r hr
    exact ⟨hr, List.mem_map_of_mem _ hr⟩

/-- Witness for C9: a run with one success and one failure summarizes the
same as the run holding only the success; a run with only the failure gets
the no-success notice. -/
theorem summarize_success_only_witness :
    PeriodicExperiment.summarize
        [⟨1, "t", 100, PeriodicExperiment.Status.code 200⟩,
         ⟨2, "t", 30000, PeriodicExperiment.Status.caught "err"⟩] =
      PeriodicExperiment.summarize
        [⟨1, "t", 100, PeriodicExperiment.Status.code 200⟩] ∧
    PeriodicExperiment.summarize
        [⟨2, "t", 30000, PeriodicExperiment.Status.caught "err"⟩] =
      PeriodicExperiment.SummarizeOutcome.noSuccess :=
  ⟨(summarize_success_only
      [⟨1, "t", 100, PeriodicExperiment.Status.code 200⟩,
       ⟨2, "t", 30000, PeriodicExperiment.Status.caught "err"⟩]
      [⟨1, "t", 100, PeriodicExperiment.Status.code 200⟩]).1 (by decide),
   (summarize_success_only
      [⟨2, "t", 30000, PeriodicExperiment.Status.caught "err"⟩] []).2.1.mpr
      (by decide)⟩

/-- Counterexample for C5: a live run whose single request fails leaves the
aggregable sequence empty, yet the process prints the notice and exits ZERO,
not non-zero as claimed. -/
theorem empty_aggregation_exit_zero :
    PeriodicExperiment.successLatencies
      (PeriodicExperiment.run_experiment 1
        (fun _ => (30000, PeriodicExperiment.Status.caught "timeout"))
        (fun _ => "t")) = [] ∧
    PeriodicExperiment.periodic_main 1
      (fun _ => (30000, PeriodicExperiment.Status.caught "timeout"))
      (fun _ => "t") = (0, PeriodicExperiment.SummarizeOutcome.noSuccess) := by
  decide

/-- C5 as amended: an empty aggregable sequence is always rejected before
aggregation and no statistics are reported on it, and the log-analysis
script exits with status 1; but the live periodic script merely prints its
no-success notice and exits zero. -/
theorem empty_aggregation_behavior (lines : List (List Char)) (N : Nat)
    (transport : Nat → ℚ × PeriodicExperiment.Status)
    (clock : Nat → String) :
    (AnalyzePeriodic.parse_periodic_log lines = [] →
      AnalyzePeriodic.analyze_main lines = (1, none)) ∧
    (∀ e s, AnalyzePeriodic.analyze_main lines = (e, some s) →
      AnalyzePeriodic.parse_periodic_log lines ≠ [] ∧ e = 0) ∧
    (PeriodicExperiment.successLatencies
        (PeriodicExperiment.run_experiment N transport clock) = [] →
      PeriodicExperiment.periodic_main N transport clock =
        (0, PeriodicExperiment.SummarizeOutcome.noSuccess)) ∧
    (∀ s, PeriodicExperiment.summarize
        (PeriodicExperiment.run_experiment N transport clock) =
          PeriodicExperiment.SummarizeOutcome.report s →
      PeriodicExperiment.successLatencies
        (PeriodicExperiment.run_experiment N transport clock) ≠ []) := by
  refine ⟨?_, ?_, ?_, ?_⟩
  · intro h
    simp [AnalyzePeriodic.analyze_main, h]
  · intro e s hs
    by_cases hp : AnalyzePeriodic.parse_periodic_log lines = []
    · simp [AnalyzePeriodic.analyze_main, hp] at hs
    · refine ⟨hp, ?_⟩
      have hne : ((AnalyzePeriodic.parse_periodic_log lines).map
          (fun smp => smp.2)).isEmpty = false := by
        simp [List.isEmpty_iff, hp]
      cases hsum : AnalyzePeriodic.summarize
          ((AnalyzePeriodic.parse_periodic_log lines).map
            (fun smp => smp.2)) with
      | none =>
        rw [AnalyzePeriodic.analyze_main] at hs
        simp only [hne, Bool.false_eq_true, if_false, hsum,
          Prod.mk.injEq] at hs
        cases hs.2
      | some s2 =>
        rw [AnalyzePeriodic.analyze_main] at hs
        simp only [hne, Bool.false_eq_true, if_false, hsum,
          Prod.mk.injEq] at hs
        exact hs.1.symm
  · intro h
    have hsum : PeriodicExperiment.summarize
        (PeriodicExperiment.run_experiment N transport clock) =
        PeriodicExperiment.SummarizeOutcome.noSuccess := by
      simp [PeriodicExperiment.summarize, h]
    simp [PeriodicExperiment.periodic_main, hsum]
  · intro s hrep hempty
    have hsum : PeriodicExperiment.summarize
        (PeriodicExperiment.run_experiment N transport clock) =
        PeriodicExperiment.SummarizeOutcome.noSuccess := by
      simp [PeriodicExperiment.summarize, hempty]
    rw [hsum] at hrep
    cases hrep

/-- Witness for C5 as amended, on an empty log and a run of one failing
request. -/
theorem empty_aggregation_behavior_witness :
    AnalyzePeriodic.analyze_main [] = (1, none) ∧
    PeriodicExperiment.periodic_main 1
      (fun _ => (30000, PeriodicExperiment.Status.caught "timeout"))
      (fun _ => "t") = (0, PeriodicExperiment.SummarizeOutcome.noSuccess) :=
  ⟨(empty_aggregation_behavior [] 1
      (fun _ => (30000, PeriodicExperiment.Status.caught "timeout"))
      (fun _ => "t")).1 (by decide),
   (empty_aggregation_behavior [] 1
      (fun _ => (30000, PeriodicExperiment.Status.caught "timeout"))
      (fun _ => "t")).2.2.1 (by decide)⟩

/-- Helper: sorting permutes. -/
theorem sortQ_perm (l : List ℚ) : (sortQ l).Perm l := List.perm_insertionSort _ l

/-- Helper: sorting preserves length. -/
theorem sortQ_length (l : List ℚ) : (sortQ l).length = l.length :=
  (sortQ_perm l).length_eq

/-- Helper: `sortQ` sorts. -/
theorem sortQ_sorted (l : List ℚ) : List.Sorted (· ≤ ·) (sortQ l) :=
  List.sorted_insertionSort _ l

/-- Helper: Python `int()` on a nonnegative rational is its floor. -/
theorem tdiv_num_den_eq_floor (q : ℚ) (hq : 0 ≤ q) :
    Int.tdiv q.num (q.den : ℤ) = ⌊q⌋ := by
  rw [Rat.floor_def]
  exact Int.tdiv_eq_ediv (Rat.num_nonneg.mpr hq) (Int.natCast_nonneg q.den)

/-- Helper: on a non-empty list and `p` in `[0,100]`, `percentile` returns
exactly the spec's linear interpolation between the elements at ranks
`floor k` and `ceil k` for `k = (n-1) * p/100`. -/
theorem percentile_eq_interp (s : List ℚ) (hs : s ≠ []) (p : ℚ)
    (h0 : 0 ≤ p) (h1 : p ≤ 100) :
    ExperimentSuite.percentile s p =
      some (s.getD (Int.toNat ⌊((s.length : ℚ) - 1) * (p / 100)⌋) 0 +
        (s.getD (Int.toNat ⌈((s.length : ℚ) - 1) * (p / 100)⌉) 0 -
         s.getD (Int.toNat ⌊((s.length : ℚ) - 1) * (p / 100)⌋) 0) *
        (((s.length : ℚ) - 1) * (p / 100)
          - (⌊((s.length : ℚ) - 1) * (p / 100)⌋ : ℚ))) := by
  have hn1 : 0 < s.length := List.length_pos.mpr hs
  have hne : s.isEmpty = false := by simp [List.isEmpty_iff, hs]
  rw [ExperimentSuite.percentile]
  simp only [hne, Bool.false_eq_true, if_false]
  set k : ℚ := ((s.length : ℚ) - 1) * (p / 100) with hkdef
  have hk0 : 0 ≤ k := by
    apply mul_nonneg
    · have : (1 : ℚ) ≤ (s.length : ℚ) := by exact_mod_cast hn1
      linarith
    · positivity
  have hk1 : k ≤ (s.length : ℚ) - 1 := by
    have hp1 : p / 100 ≤ 1 := by
      rw [div_le_one (by norm_num : (0 : ℚ) < 100)]
      exact h1
    have hnn : (0 : ℚ) ≤ (s.length : ℚ) - 1 := by
      have : (1 : ℚ) ≤ (s.length : ℚ) := by exact_mod_cast hn1
      linarith
    calc k ≤ ((s.length : ℚ) - 1) * 1 := mul_le_mul_of_nonneg_left hp1 hnn
    _ = (s.length : ℚ) - 1 := mul_one _
  have hfl0 : 0 ≤ ⌊k⌋ := Int.floor_nonneg.mpr hk0
  have hfln : ⌊k⌋ ≤ (s.length : ℤ) - 1 := by
    have hcast : ((s.length : ℚ) - 1) = (((s.length : ℤ) - 1 : ℤ) : ℚ) := by
      push_cast
      ring
    have h2 := Int.floor_le_floor hk1
    rwa [hcast, Int.floor_intCast] at h2
  rw [tdiv_num_den_eq_floor k hk0]
  by_cases hint : (⌊k⌋ : ℚ) = k
  · have hz : k - (⌊k⌋ : ℚ) = 0 := by rw [hint]; ring
    have hceil : ⌈k⌉ = ⌊k⌋ := by
      conv_lhs => rw [← hint]
      rw [Int.ceil_intCast]
    rw [hceil, hz, mul_zero, add_zero]
    by_cases hlast : ⌊k⌋ = (s.length : ℤ) - 1
    · have hminr : min (⌊k⌋ + 1) ((s.length : ℤ) - 1) = (s.length : ℤ) - 1 :=
        min_eq_right (by omega)
      rw [hminr, if_pos hlast]
      have hidx : (⌊k⌋).toNat < s.length := by
        rw [Int.toNat_lt hfl0]
        omega
      rw [List.getElem?_eq_getElem hidx, List.getD_eq_getElem s 0 hidx]
    · have hminl : min (⌊k⌋ + 1) ((s.length : ℤ) - 1) = ⌊k⌋ + 1 :=
        min_eq_left (by omega)
      rw [hminl, if_neg (by omega)]
      have hidx : (⌊k⌋).toNat < s.length := by
        rw [Int.toNat_lt hfl0]
        omega
      have hidx2 : (⌊k⌋ + 1).toNat < s.length := by
        rw [Int.toNat_lt (by omega : (0 : ℤ) ≤ ⌊k⌋ + 1)]
        omega
      rw [List.getElem?_eq_getElem hidx, List.getElem?_eq_getElem hidx2]
      have hz2 : k - (⌊k⌋ : ℚ) = 0 := by rw [hint]; ring
      simp only [hz2, mul_zero, add_zero, List.getD_eq_getElem s 0 hidx]
  · have hflt : (⌊k⌋ : ℚ) < k := lt_of_le_of_ne (Int.floor_le k) hint
    have hklt : k < (s.length : ℚ) - 1 := by
      rcases lt_or_eq_of_le hk1 with h | h
      · exact h
      · exfalso
        apply hint
        have hcast : ((s.length : ℚ) - 1) = (((s.length : ℤ) - 1 : ℤ) : ℚ) := by
          push_cast
          ring
        rw [h, hcast, Int.floor_intCast]
    have hceil : ⌈k⌉ = ⌊k⌋ + 1 := by
      have hle : ⌈k⌉ ≤ ⌊k⌋ + 1 := by
        apply Int.ceil_le.mpr
        push_cast
        exact le_of_lt (Int.lt_floor_add_one k)
      have hgt : ⌊k⌋ < ⌈k⌉ := by
        have h2 : (⌊k⌋ : ℚ) < (⌈k⌉ : ℚ) := lt_of_lt_of_le hflt (Int.le_ceil k)
        exact_mod_cast h2
      omega
    have hfn2 : ⌊k⌋ < (s.length : ℤ) - 1 := by
      apply Int.floor_lt.mpr
      push_cast
      exact hklt
    have hminl : min (⌊k⌋ + 1) ((s.length : ℤ) - 1) = ⌊k⌋ + 1 :=
      min_eq_left (by omega)
    rw [hminl, if_neg (by omega), hceil]
    have hidx : (⌊k⌋).toNat < s.length := by
      rw [Int.toNat_lt hfl0]
      omega
    have hidx2 : (⌊k⌋ + 1).toNat < s.length := by
      rw [Int.toNat_lt (by omega : (0 : ℤ) ≤ ⌊k⌋ + 1)]
      omega
    rw [List.getElem?_eq_getElem hidx, List.getElem?_eq_getElem hidx2]
    simp only [List.getD_eq_getElem s 0 hidx, List.getD_eq_getElem s 0 hidx2]

/-- Counterexample for C1: on the two-point sequence `[1, 2]` the p90 the
periodic scripts report through `statistics.quantiles` (exclusive method) is
1.7, while the linear-interpolation percentile of the spec is 1.9. -/
theorem periodic_p90_not_interpolated :
    (∃ st, AnalyzePeriodic.summarize [(1 : ℚ), 2] = some st ∧
      st.p90 = 17 / 10) ∧
    ExperimentSuite.specPercentile [(1 : ℚ), 2] 90 = 19 / 10 ∧
    (17 / 10 : ℚ) ≠ 19 / 10 := by
  have hsort : sortQ [(1 : ℚ), 2] = [1, 2] := by decide
  have h90 : ∀ qs, ColdStart.quantilesExc [(1 : ℚ), 2] 100 = some qs →
      qs.getD 89 0 = 17 / 10 := by
    intro qs hqs
    simp only [ColdStart.quantilesExc, hsort, List.length_cons,
      List.length_nil] at hqs
    norm_num at hqs
    rw [← hqs]
    rw [List.getD_eq_getElem?_getD, List.getElem?_map,
      List.getElem?_range (by norm_num : 89 < 99)]
    norm_num
  refine ⟨?_, ?_, by norm_num⟩
  · cases hqex : ColdStart.quantilesExc [(1 : ℚ), 2] 100 with
    | none =>
      exfalso
      simp only [ColdStart.quantilesExc, hsort, List.length_cons,
        List.length_nil] at hqex
      norm_num at hqex
      exact Option.some_ne_none _ hqex
    | some qs =>
      refine ⟨AnalyzePeriodic.summaryOf [1, 2] qs, ?_, ?_⟩
      · simp [AnalyzePeriodic.summarize, hqex]
      · exact h90 qs hqex
  · simp only [ExperimentSuite.specPercentile, hsort, List.length_cons,
      List.length_nil]
    rw [show ((((2 : ℕ)) : ℚ) - 1) * (90 / 100) = 9 / 10 by
      push_cast
      norm_num]
    rw [show ⌊(9 / 10 : ℚ)⌋ = 0 by
      rw [Int.floor_eq_zero_iff]
      constructor <;> norm_num]
    rw [show ⌈(9 / 10 : ℚ)⌉ = 1 by
      rw [Int.ceil_eq_iff]
      constructor <;> norm_num]
    norm_num

/-- C1 as amended: the suite's `percentile` (hence each of the four
percentiles `summarize_latencies` reports) equals the spec's
linear-interpolation percentile for every non-empty sequence and every `p`
in `[0,100]`; the p90/p99 the two periodic scripts report use the exclusive
quantile method instead, which differs (see the counterexample). -/
theorem suite_percentile_linear (l : List ℚ) (p : ℚ) (hl : l ≠ [])
    (h0 : 0 ≤ p) (h1 : p ≤ 100) :
    ExperimentSuite.percentile (ColdStart.sortQ l) p =
      some (ExperimentSuite.specPercentile l p) ∧
    (∀ st, ExperimentSuite.summarize_latencies l = some st →
      st.p50 = ExperimentSuite.specPercentile l 50 ∧
      st.p90 = ExperimentSuite.specPercentile l 90 ∧
      st.p95 = ExperimentSuite.specPercentile l 95 ∧
      st.p99 = ExperimentSuite.specPercentile l 99) := by
  have hsne : ColdStart.sortQ l ≠ [] := by
    rw [← List.length_pos, sortQ_length]
    exact List.length_pos.mpr hl
  have key : ∀ q, 0 ≤ q → q ≤ 100 →
      ExperimentSuite.percentile (ColdStart.sortQ l) q =
        some (ExperimentSuite.specPercentile l q) := by
    intro q hq0 hq1
    exact percentile_eq_interp (ColdStart.sortQ l) hsne q hq0 hq1
  refine ⟨key p h0 h1, ?_⟩
  intro st hst
  have he : l.isEmpty = false := by simp [List.isEmpty_iff, hl]
  rw [ExperimentSuite.summarize_latencies] at hst
  simp only [he, Bool.false_eq_true, if_false, Option.some.injEq] at hst
  rw [← hst]
  refine ⟨?_, ?_, ?_, ?_⟩
  · rw [key 50 (by norm_num) (by norm_num)]
    rfl
  · rw [key 90 (by norm_num) (by norm_num)]
    rfl
  · rw [key 95 (by norm_num) (by norm_num)]
    rfl
  · rw [key 99 (by norm_num) (by norm_num)]
    rfl

/-- Witness for C1 as amended, on `[1, 2]` at `p = 90`. -/
theorem suite_percentile_linear_witness :
    ExperimentSuite.percentile (ColdStart.sortQ [(1 : ℚ), 2]) 90 =
      some (ExperimentSuite.specPercentile [(1 : ℚ), 2] 90) :=
  (suite_percentile_linear [(1 : ℚ), 2] 90 (by decide) (by norm_num)
    (by norm_num)).1

/-- Counterexample for C6: the quantiles-based aggregation raises on a
single-element sequence, which is non-empty — the aggregator does not fail
ONLY on empty input. -/
theorem aggregator_singleton_raises :
    AnalyzePeriodic.summarize [(100 : ℚ)] = none ∧
    ([(100 : ℚ)] : List ℚ) ≠ [] ∧ ([(100 : ℚ)] : List ℚ).length = 1 := by
  decide

/-- C6 as amended: the suite percentile and `summarize_latencies` succeed on
exactly the non-empty sequences (for `p` in `[0,100]`), but the p90/p99 of
the two periodic scripts go through `statistics.quantiles`, which needs at
least two points: their summary succeeds exactly on sequences of length at
least 2 and raises on singletons. -/
theorem aggregator_empty_domain (l : List ℚ) (p : ℚ)
    (h0 : 0 ≤ p) (h1 : p ≤ 100) :
    ((ExperimentSuite.percentile (ColdStart.sortQ l) p).isSome ↔ l ≠ []) ∧
    ((ExperimentSuite.summarize_latencies l).isSome ↔ l ≠ []) ∧
    ((AnalyzePeriodic.summarize l).isSome ↔ 2 ≤ l.length) := by
  refine ⟨?_, ?_, ?_⟩
  · constructor
    · intro hsome hl
      rw [hl] at hsome
      simp [ExperimentSuite.percentile, ColdStart.sortQ] at hsome
    · intro hl
      have hsne : ColdStart.sortQ l ≠ [] := by
        rw [← List.length_pos, sortQ_length]
        exact List.length_pos.mpr hl
      rw [percentile_eq_interp (ColdStart.sortQ l) hsne p h0 h1]
      rfl
  · by_cases he : l.isEmpty = true
    · rw [List.isEmpty_iff] at he
      simp [ExperimentSuite.summarize_latencies, he]
    · have hl : l ≠ [] := by
        intro hnil
        exact he (by simp [hnil])
      simp [ExperimentSuite.summarize_latencies, hl, List.isEmpty_iff]
  · by_cases hlen : 2 ≤ l.length
    · have hlt : ¬ ((ColdStart.sortQ l).length < 2) := by
        rw [sortQ_length]
        omega
      have he : l.isEmpty = false := by
        rw [List.isEmpty_eq_false_iff_exists_mem]
        cases l with
        | nil => simp at hlen
        | cons a rest => exact ⟨a, List.mem_cons_self a rest⟩
      cases hq : ColdStart.quantilesExc l 100 with
      | none => simp [ColdStart.quantilesExc, hlt] at hq
      | some qs =>
        simp [AnalyzePeriodic.summarize, he, hq, hlen]
    · have hlt : (ColdStart.sortQ l).length < 2 := by
        rw [sortQ_length]
        omega
      have hq : ColdStart.quantilesExc l 100 = none := by
        simp [ColdStart.quantilesExc, hlt]
      by_cases he : l.isEmpty = true <;>
        simp [AnalyzePeriodic.summarize, he, hq, hlen]

/-- Witness for C6 as amended: `[1, 2]` is accepted by all three
aggregation paths. -/
theorem aggregator_empty_domain_witness :
    ((ExperimentSuite.percentile (ColdStart.sortQ [(1 : ℚ), 2]) 50).isSome
      = true) ∧
    ((AnalyzePeriodic.summarize [(1 : ℚ), 2]).isSome = true) :=
  ⟨(aggregator_empty_domain [(1 : ℚ), 2] 50 (by norm_num)
      (by norm_num)).1.mpr (by decide),
   (aggregator_empty_domain [(1 : ℚ), 2] 50 (by norm_num)
      (by norm_num)).2.2.mpr (by decide)⟩

/-- Helper: in a sorted list every element is at most the last. -/
theorem sorted_le_last (s : List ℚ) (hs : List.Sorted (· ≤ ·) s)
    (hne : s ≠ []) : ∀ x ∈ s, x ≤ s.getD (s.length - 1) 0 := by
  intro x hx
  obtain ⟨i, hi, rfl⟩ := List.mem_iff_getElem.mp hx
  have hlast : s.length - 1 < s.length := by
    have := List.length_pos.mpr hne
    omega
  rw [List.getD_eq_getElem s 0 hlast]
  have h2 := hs.rel_get_of_le (a := ⟨i, hi⟩) (b := ⟨s.length - 1, hlast⟩)
    (by
      rw [Fin.le_def]
      simp only []
      omega)
  simpa [List.get_eq_getElem] using h2

/-- Helper: in a sorted list the head is at most every element. -/
theorem sorted_head_le (s : List ℚ) (hs : List.Sorted (· ≤ ·) s)
    (hne : s ≠ []) : ∀ x ∈ s, s.getD 0 0 ≤ x := by
  intro x hx
  obtain ⟨i, hi, rfl⟩ := List.mem_iff_getElem.mp hx
  have h0 : 0 < s.length := List.length_pos.mpr hne
  rw [List.getD_eq_getElem s 0 h0]
  have h2 := hs.rel_get_of_le (a := ⟨0, h0⟩) (b := ⟨i, hi⟩)
    (by
      rw [Fin.le_def]
      simp only []
      omega)
  simpa [List.get_eq_getElem] using h2

/-- C8: for every non-empty sorted sequence, `percentile(100)` is the
maximum element, `percentile(0)` is the minimum element, and for odd length
`percentile(50)` is the median. -/
theorem percentile_extremes (s : List ℚ) (hsort : List.Sorted (· ≤ ·) s)
    (hne : s ≠ []) :
    (∃ a, ExperimentSuite.percentile s 100 = some a ∧ a ∈ s ∧
      ∀ x ∈ s, x ≤ a) ∧
    (∃ b, ExperimentSuite.percentile s 0 = some b ∧ b ∈ s ∧
      ∀ x ∈ s, b ≤ x) ∧
    (s.length % 2 = 1 →
      ExperimentSuite.percentile s 50 = some (ColdStart.medianQ s)) := by
  have hn1 : 0 < s.length := List.length_pos.mpr hne
  have hlast : s.length - 1 < s.length := by omega
  have hcast : ((s.length : ℚ) - 1) = (((s.length : ℤ) - 1 : ℤ) : ℚ) := by
    push_cast
    ring
  refine ⟨?_, ?_, ?_⟩
  · have h := percentile_eq_interp s hne 100 (by norm_num) (by norm_num)
    rw [show ((s.length : ℚ) - 1) * (100 / 100) = (((s.length : ℤ) - 1 : ℤ) : ℚ)
        by rw [← hcast]; ring] at h
    rw [Int.floor_intCast, Int.ceil_intCast, sub_self, zero_mul, add_zero,
      show ((s.length : ℤ) - 1).toNat = s.length - 1 by omega] at h
    refine ⟨s.getD (s.length - 1) 0, h, ?_, sorted_le_last s hsort hne⟩
    rw [List.getD_eq_getElem s 0 hlast]
    exact List.getElem_mem hlast
  · have h := percentile_eq_interp s hne 0 (by norm_num) (by norm_num)
    rw [show ((s.length : ℚ) - 1) * (0 / 100) = ((0 : ℤ) : ℚ) by norm_num]
      at h
    rw [Int.floor_intCast, Int.ceil_intCast, sub_self, zero_mul, add_zero,
      Int.toNat_zero] at h
    refine ⟨s.getD 0 0, h, ?_, sorted_head_le s hsort hne⟩
    rw [List.getD_eq_getElem s 0 hn1]
    exact List.getElem_mem hn1
  · intro hodd
    set q := s.length / 2 with hqdef
    have hm : s.length = 2 * q + 1 := by omega
    have h := percentile_eq_interp s hne 50 (by norm_num) (by norm_num)
    have hk : ((s.length : ℚ) - 1) * (50 / 100) = ((q : ℤ) : ℚ) := by
      have hc : (s.length : ℚ) = 2 * (q : ℚ) + 1 := by
        rw [hm]
        push_cast
        ring
      rw [hc]
      push_cast
      ring
    rw [hk, Int.floor_intCast, Int.ceil_intCast, sub_self, zero_mul,
      add_zero, Int.toNat_natCast] at h
    rw [h, ColdStart.medianQ]
    have hss : ColdStart.sortQ s = s := List.Sorted.insertionSort_eq hsort
    simp only [hss, hodd, if_pos]

/-- Witness for C8 on the sorted odd-length list `[1, 2, 3]`. -/
theorem percentile_extremes_witness :
    ExperimentSuite.percentile [(1 : ℚ), 2, 3] 50 =
      some (ColdStart.medianQ [(1 : ℚ), 2, 3]) :=
  (percentile_extremes [(1 : ℚ), 2, 3] (by decide) (by decide)).2.2 (by decide)

/-- Helper: `toLower` fixes every digit. -/
theorem toLower_digit {c : Char} (h : c.isDigit = true) : c.toLower = c := by
  simp [Char.isDigit] at h
  rw [Char.toLower]
  rw [if_neg]
  intro hc
  obtain ⟨h1, h2⟩ := h
  obtain ⟨h3, _⟩ := hc
  rw [Char.toNat] at h3
  have h5 : c.val.toNat ≤ (57 : UInt32).toNat := h2
  have h6 : (57 : UInt32).toNat = 57 := rfl
  omega

/-- Helper: `dropWhile` is the identity when the predicate holds nowhere. -/
theorem dropWhile_eq_self_of_forall {p : Char → Bool} {l : List Char}
    (h : ∀ c ∈ l, p c = false) : l.dropWhile p = l := by
  cases l with
  | nil => rfl
  | cons a rest =>
    rw [List.dropWhile_cons, h a (List.mem_cons_self a rest)]
    simp

/-- Helper: a bare decimal cell (digits and dots only) passes through
`strip`/`lower` untouched and has no `s` unit suffix. -/
theorem bare_cell_normal {s : List Char}
    (h : s.all (fun c => c.isDigit || c == '.') = true) :
    ExperimentSuite.stripWs s = s ∧ s.map Char.toLower = s ∧
    ¬ s.getLast? = some 's' := by
  rw [List.all_eq_true] at h
  have hdd : ∀ c ∈ s, c.isDigit = true ∨ c = '.' := by
    intro c hc
    rcases Bool.or_eq_true_iff.mp (h c hc) with h1 | h1
    · exact Or.inl h1
    · exact Or.inr (eq_of_beq h1)
  have hnsp : ∀ c ∈ s, AnalyzePeriodic.isSpaceCh c = false := by
    intro c hc
    rcases hdd c hc with h1 | h1
    · exact isSpaceCh_of_digit h1
    · rw [h1]
      decide
  refine ⟨?_, ?_, ?_⟩
  · rw [ExperimentSuite.stripWs, dropWhile_eq_self_of_forall hnsp,
      dropWhile_eq_self_of_forall (fun c hc =>
        hnsp c (List.mem_reverse.mp hc)), List.reverse_reverse]
  · have := List.map_congr_left (l := s) (f := Char.toLower) (g := id)
      (fun c hc => by
        rcases hdd c hc with h1 | h1
        · exact toLower_digit h1
        · rw [h1]
          decide)
    rw [this, List.map_id]
  · intro hlast
    have hmem : 's' ∈ s := List.mem_of_mem_getLast? hlast
    rcases hdd 's' hmem with h1 | h1
    · cases h1
    · cases h1

/-- Counterexample for C7: the tabular-consumption path cannot re-parse the
exported table at all — none of the five latency column candidates matches
the exported header — and even applied to a bare-decimal `latency_ms` cell
its cell parser treats the value as seconds and multiplies by 1000: the
cell `123.0` written for an elapsed time of 123 ms comes back as 123000. -/
theorem roundtrip_fails :
    ExperimentSuite.find_latency_column PeriodicExperiment.save_csv_header
      = none ∧
    ExperimentSuite.parse_latency_ms (String.toList "123.0") = some 123000 ∧
    ¬ (123000 : ℚ) = 123 := by
  refine ⟨by decide, ?_, by norm_num⟩
  rw [ExperimentSuite.parse_latency_ms]
  rw [show (ExperimentSuite.stripWs (String.toList "123.0")).map Char.toLower
      = ['1', '2', '3', '.', '0'] from by decide]
  rw [if_neg (by decide)]
  rw [ExperimentSuite.floatOfDecimal,
    show ExperimentSuite.floatParts ['1', '2', '3', '.', '0']
      = some (123, 0, 1) from by decide]
  simp only [Option.map_some']
  norm_num

/-- C7 as amended: the export/consume pair does not round-trip: the column
finder recognizes none of the exported header names, and on every cell that
is a bare decimal (no unit suffix) the consumption parser returns 1000
times the cell value — the original sequence would be reproduced only after
dividing by 1000. -/
theorem roundtrip_scales (s : List Char) (q : ℚ)
    (hcell : s.all (fun c => c.isDigit || c == '.') = true)
    (hval : ExperimentSuite.floatOfDecimal s = some q) :
    ExperimentSuite.find_latency_column PeriodicExperiment.save_csv_header
      = none ∧
    ExperimentSuite.parse_latency_ms s = some (1000 * q) := by
  obtain ⟨hstrip, hlower, hlast⟩ := bare_cell_normal hcell
  refine ⟨by decide, ?_⟩
  rw [ExperimentSuite.parse_latency_ms, hstrip, hlower, if_neg hlast, hval]
  simp only [Option.map_some']
  rw [mul_comm]

/-- Witness for C7 as amended, on the cell `123.0`. -/
theorem roundtrip_scales_witness :
    ExperimentSuite.parse_latency_ms (String.toList "123.0")
      = some (1000 * (123 : ℚ)) :=
  (roundtrip_scales (String.toList "123.0") 123 (by decide) (by
    rw [ExperimentSuite.floatOfDecimal,
      show ExperimentSuite.floatParts (String.toList "123.0")
        = some (123, 0, 1) from by decide]
    simp only [Option.map_some']
    norm_num)).2

end Theorems
